import Mathlib

/-!
Verification development for the recursive VLC channel model
(`main_model.py`): tessellation of the six walls of a rectangular room
into square cells, pairwise geometry parameters, the recursive channel
impulse response (CIR), and the power-delay histogrammer.

Real-valued quantities of the source are embedded exactly: rational
arithmetic (`ℚ`) wherever the source computes with rationally-valued
data, and `ℝ` for the geometric kernel (Euclidean norms involve square
roots).  The float constant `np.pi` used by `compute_cir` is modelled as
an explicit parameter `piv` of the corresponding definitions, since the
claims about those formulas hold for every value of the constant.
-/

/-- Source constant `BINS_HIST = 300` (bins of the power histogram). -/
def BINS_HIST : ℕ := 300

/-- Source constant `TIME_RESOLUTION = 0.2e-9` seconds. -/
def TIME_RESOLUTION : ℚ := 1 / 5000000000

/-- Source constant `SPEED_OF_LIGHT = 3e8` m/s. -/
def SPEED_OF_LIGHT : ℚ := 300000000

/-- Source function `lcm` (main_model.py lines 247-248):
`abs(num1*num2*num3) // math.gcd(num3, math.gcd(num1, num2))`.
It is applied to the three positive denominators of the room dimensions,
so it is embedded on `ℕ` (where `abs` is the identity and Python's `//`
is `Nat.div`). -/
def lcmCode (a b c : ℕ) : ℕ := a * b * c / Nat.gcd c (Nat.gcd a b)

lemma lcmCode_dvd_left (a b c : ℕ) (hg : 0 < Nat.gcd c (Nat.gcd a b)) :
    a ∣ lcmCode a b c := by
  obtain ⟨m, hm⟩ := Nat.gcd_dvd_left c (Nat.gcd a b)
  have h : a * b * c = Nat.gcd c (Nat.gcd a b) * (a * (b * m)) := by
    conv_lhs => rw [hm]
    ring
  rw [lcmCode, h, Nat.mul_div_cancel_left _ hg]
  exact ⟨b * m, rfl⟩

lemma lcmCode_dvd_mid (a b c : ℕ) (hg : 0 < Nat.gcd c (Nat.gcd a b)) :
    b ∣ lcmCode a b c := by
  obtain ⟨m, hm⟩ := Nat.gcd_dvd_left c (Nat.gcd a b)
  have h : a * b * c = Nat.gcd c (Nat.gcd a b) * (b * (a * m)) := by
    conv_lhs => rw [hm]
    ring
  rw [lcmCode, h, Nat.mul_div_cancel_left _ hg]
  exact ⟨a * m, rfl⟩

lemma lcmCode_dvd_right (a b c : ℕ) (hg : 0 < Nat.gcd c (Nat.gcd a b)) :
    c ∣ lcmCode a b c := by
  obtain ⟨m, hm⟩ :=
    ((Nat.gcd_dvd_right c (Nat.gcd a b)).trans (Nat.gcd_dvd_left a b))
  have h : a * b * c = Nat.gcd c (Nat.gcd a b) * (c * (m * b)) := by
    conv_lhs => rw [hm]
    ring
  rw [lcmCode, h, Nat.mul_div_cancel_left _ hg]
  exact ⟨m * b, rfl⟩

lemma lcmCode_pos (a b c : ℕ) (ha : 0 < a) (hb : 0 < b) (hc : 0 < c) :
    0 < lcmCode a b c := by
  have hg : 0 < Nat.gcd c (Nat.gcd a b) := Nat.gcd_pos_of_pos_left _ hc
  have hd : Nat.gcd c (Nat.gcd a b) ∣ a * b * c :=
    (Nat.gcd_dvd_left c (Nat.gcd a b)).trans (Dvd.intro_left _ rfl)
  exact Nat.div_pos (Nat.le_of_dvd (by positivity) hd) hg

/-- Per-axis integer tick count (main_model.py lines 142-144):
`n_x = int(den_lcm*x_num/x_den)`, exact because `x_den ∣ den_lcm`. -/
def n_tick (L num den : ℕ) : ℕ := L * num / den

/-- Source `num_gfc = math.gcd(n_z, math.gcd(n_x, n_y))` (line 148). -/
def num_gfc (nx ny nz : ℕ) : ℕ := Nat.gcd nz (Nat.gcd nx ny)

/-- Source `delta_Lmax = num_gfc / den_lcm` (line 151), as an exact
rational, with the room dimensions given as exact fractions
`x_lim = xn/xd`, `y_lim = yn/yd`, `z_lim = zn/zd`. -/
def delta_Lmax (xn xd yn yd zn zd : ℕ) : ℚ :=
  (num_gfc (n_tick (lcmCode xd yd zd) xn xd)
           (n_tick (lcmCode xd yd zd) yn yd)
           (n_tick (lcmCode xd yd zd) zn zd) : ℚ) / (lcmCode xd yd zd : ℚ)

/-- Source `delta_L = delta_Lmax*scale_factor` (line 157). -/
def delta_L (xn xd yn yd zn zd : ℕ) (scale : ℚ) : ℚ :=
  delta_Lmax xn xd yn yd zn zd * scale

lemma n_tick_mul_den (L num den : ℕ) (hden : den ∣ L) :
    n_tick L num den * den = L * num :=
  Nat.div_mul_cancel (Dvd.dvd.mul_right hden num)

lemma n_tick_pos (L num den : ℕ) (hL : 0 < L) (hnum : 0 < num)
    (hden : 0 < den) (hdvd : den ∣ L) : 0 < n_tick L num den :=
  Nat.div_pos (Nat.le_of_dvd (by positivity) (Dvd.dvd.mul_right hdvd num)) hden

/-- C5: at denominators `(2,2,2)` the source helper `lcm` returns
`abs(2*2*2) // gcd(2, gcd(2,2)) = 4`, whereas the least common multiple
of 2, 2 and 2 is 2; the helper is not an LCM. -/
theorem claim_C5 :
    lcmCode 2 2 2 = 4 ∧ Nat.lcm 2 (Nat.lcm 2 2) = 2 ∧
      lcmCode 2 2 2 ≠ Nat.lcm 2 (Nat.lcm 2 2) := by decide

/-- C6: for every room whose dimensions are the exact positive rationals
`xn/xd`, `yn/yd`, `zn/zd`, the `delta_Lmax` computed by the tessellation
front end divides each dimension exactly: every quotient
`dimension / delta_Lmax` is a positive integer. -/
theorem claim_C6 (xn xd yn yd zn zd : ℕ)
    (hxn : 0 < xn) (hxd : 0 < xd) (hyn : 0 < yn) (hyd : 0 < yd)
    (hzn : 0 < zn) (hzd : 0 < zd) :
    ∃ qx qy qz : ℕ, 0 < qx ∧ 0 < qy ∧ 0 < qz ∧
      (xn : ℚ) / xd = qx * delta_Lmax xn xd yn yd zn zd ∧
      (yn : ℚ) / yd = qy * delta_Lmax xn xd yn yd zn zd ∧
      (zn : ℚ) / zd = qz * delta_Lmax xn xd yn yd zn zd := by
  have hg0 : 0 < Nat.gcd zd (Nat.gcd xd yd) := Nat.gcd_pos_of_pos_left _ hzd
  set L := lcmCode xd yd zd with hLdef
  have hL : 0 < L := lcmCode_pos _ _ _ hxd hyd hzd
  have hdx : xd ∣ L := lcmCode_dvd_left _ _ _ hg0
  have hdy : yd ∣ L := lcmCode_dvd_mid _ _ _ hg0
  have hdz : zd ∣ L := lcmCode_dvd_right _ _ _ hg0
  set nx := n_tick L xn xd with hnx
  set ny := n_tick L yn yd with hny
  set nz := n_tick L zn zd with hnz
  have hnxd : nx * xd = L * xn := n_tick_mul_den _ _ _ hdx
  have hnyd : ny * yd = L * yn := n_tick_mul_den _ _ _ hdy
  have hnzd : nz * zd = L * zn := n_tick_mul_den _ _ _ hdz
  have hnxp : 0 < nx := n_tick_pos _ _ _ hL hxn hxd hdx
  have hnyp : 0 < ny := n_tick_pos _ _ _ hL hyn hyd hdy
  have hnzp : 0 < nz := n_tick_pos _ _ _ hL hzn hzd hdz
  set g := num_gfc nx ny nz with hgdef
  have hgx : g ∣ nx := (Nat.gcd_dvd_right nz _).trans (Nat.gcd_dvd_left nx ny)
  have hgy : g ∣ ny := (Nat.gcd_dvd_right nz _).trans (Nat.gcd_dvd_right nx ny)
  have hgz : g ∣ nz := Nat.gcd_dvd_left nz _
  have hgp : 0 < g := Nat.gcd_pos_of_pos_left _ hnzp
  refine ⟨nx / g, ny / g, nz / g, ?_, ?_, ?_, ?_, ?_, ?_⟩
  · exact Nat.div_pos (Nat.le_of_dvd hnxp hgx) hgp
  · exact Nat.div_pos (Nat.le_of_dvd hnyp hgy) hgp
  · exact Nat.div_pos (Nat.le_of_dvd hnzp hgz) hgp
  · have hq' : ((nx / g : ℕ) : ℚ) * (g : ℚ) = (nx : ℚ) := by
      exact_mod_cast Nat.div_mul_cancel hgx
    have hLq : ((L : ℚ)) ≠ 0 := by exact_mod_cast hL.ne'
    have hxdq : ((xd : ℚ)) ≠ 0 := by exact_mod_cast hxd.ne'
    have hcast : ((nx : ℚ)) * xd = (L : ℚ) * xn := by exact_mod_cast hnxd
    rw [delta_Lmax, ← hLdef, ← hnx, ← hny, ← hnz, ← hgdef]
    have hR : ((nx / g : ℕ) : ℚ) * ((g : ℚ) / (L : ℚ)) = (nx : ℚ) / (L : ℚ) := by
      rw [← mul_div_assoc, hq']
    rw [hR, div_eq_div_iff hxdq hLq]
    linarith [hcast]
  · have hq' : ((ny / g : ℕ) : ℚ) * (g : ℚ) = (ny : ℚ) := by
      exact_mod_cast Nat.div_mul_cancel hgy
    have hLq : ((L : ℚ)) ≠ 0 := by exact_mod_cast hL.ne'
    have hydq : ((yd : ℚ)) ≠ 0 := by exact_mod_cast hyd.ne'
    have hcast : ((ny : ℚ)) * yd = (L : ℚ) * yn := by exact_mod_cast hnyd
    rw [delta_Lmax, ← hLdef, ← hnx, ← hny, ← hnz, ← hgdef]
    have hR : ((ny / g : ℕ) : ℚ) * ((g : ℚ) / (L : ℚ)) = (ny : ℚ) / (L : ℚ) := by
      rw [← mul_div_assoc, hq']
    rw [hR, div_eq_div_iff hydq hLq]
    linarith [hcast]
  · have hq' : ((nz / g : ℕ) : ℚ) * (g : ℚ) = (nz : ℚ) := by
      exact_mod_cast Nat.div_mul_cancel hgz
    have hLq : ((L : ℚ)) ≠ 0 := by exact_mod_cast hL.ne'
    have hzdq : ((zd : ℚ)) ≠ 0 := by exact_mod_cast hzd.ne'
    have hcast : ((nz : ℚ)) * zd = (L : ℚ) * zn := by exact_mod_cast hnzd
    rw [delta_Lmax, ← hLdef, ← hnx, ← hny, ← hnz, ← hgdef]
    have hR : ((nz / g : ℕ) : ℚ) * ((g : ℚ) / (L : ℚ)) = (nz : ℚ) / (L : ℚ) := by
      rw [← mul_div_assoc, hq']
    rw [hR, div_eq_div_iff hzdq hLq]
    linarith [hcast]

/-- Witness for C6 at the concrete room 2.5 × 2.5 × 3 (dimensions
5/2, 5/2, 3/1). -/
theorem claim_C6_witness :
    (0 < 5 ∧ 0 < 2 ∧ 0 < 5 ∧ 0 < 2 ∧ 0 < 3 ∧ 0 < 1) ∧
      (∃ qx qy qz : ℕ, 0 < qx ∧ 0 < qy ∧ 0 < qz ∧
        (5 : ℚ) / 2 = qx * delta_Lmax 5 2 5 2 3 1 ∧
        (5 : ℚ) / 2 = qy * delta_Lmax 5 2 5 2 3 1 ∧
        (3 : ℚ) / 1 = qz * delta_Lmax 5 2 5 2 3 1) :=
  ⟨by decide,
   claim_C6 5 2 5 2 3 1 (by decide) (by decide) (by decide) (by decide)
     (by decide) (by decide)⟩

/-- Cell of the tessellation: centroid coordinates and wall label
(rows 0-3 of a column of `array_points`). -/
structure CellPt where
  x : ℚ
  y : ℚ
  z : ℚ
  wall : ℕ
deriving DecidableEq

/-- Source `no_xtick = int(x_lim/delta_L)` (lines 173-175); the operands
are positive so Python `int` truncation is the floor. -/
def noTick (lim dL : ℚ) : ℕ := (⌊lim / dL⌋).toNat

/-- Wall 0 centroids (lines 197-200): cell `c` of the row-major loop
`for j in range(no_xtick): for i in range(no_ytick)` has `j = c / ny`,
`i = c % ny`; coordinates `(ΔL/2 + jΔL, ΔL/2 + iΔL, z_lim)`. -/
def ew0_point (dL zl : ℚ) (ny c : ℕ) : CellPt :=
  ⟨dL / 2 + (c / ny : ℕ) * dL, dL / 2 + (c % ny : ℕ) * dL, zl, 0⟩

/-- Wall 5 centroids (lines 202-205). -/
def ew5_point (dL : ℚ) (ny c : ℕ) : CellPt :=
  ⟨dL / 2 + (c / ny : ℕ) * dL, dL / 2 + (c % ny : ℕ) * dL, 0, 5⟩

/-- Wall 1 centroids (lines 212-215): loop `for j in range(no_ztick):
for i in range(no_xtick)`. -/
def ew1_point (dL xl zl : ℚ) (nx c : ℕ) : CellPt :=
  ⟨xl - dL / 2 - (c % nx : ℕ) * dL, 0, zl - dL / 2 - (c / nx : ℕ) * dL, 1⟩

/-- Wall 3 centroids (lines 217-220). -/
def ew3_point (dL xl yl zl : ℚ) (nx c : ℕ) : CellPt :=
  ⟨xl - dL / 2 - (c % nx : ℕ) * dL, yl, zl - dL / 2 - (c / nx : ℕ) * dL, 3⟩

/-- Wall 2 centroids (lines 228-231).  NOTE: the y coordinate is
`delta_L/2 + i*delta_L/2` in the source — the in-wall spacing along y is
ΔL/2, not ΔL as on the other walls. -/
def ew2_point (dL zl : ℚ) (ny c : ℕ) : CellPt :=
  ⟨0, dL / 2 + (c % ny : ℕ) * (dL / 2), zl - dL / 2 - (c / ny : ℕ) * dL, 2⟩

/-- Wall 4 centroids (lines 233-236), with the same `i*delta_L/2` y term. -/
def ew4_point (dL xl zl : ℚ) (ny c : ℕ) : CellPt :=
  ⟨xl, dL / 2 + (c % ny : ℕ) * (dL / 2), zl - dL / 2 - (c / ny : ℕ) * dL, 4⟩

/-- The concatenated `array_points` (line 244): order
`ew0, ew1, ew2, ew3, ew4, ew5` with block sizes `nx*ny, nz*nx, nz*ny,
nz*nx, nz*ny, nx*ny`; out-of-range indices give a junk cell. -/
def arrayPoints (xl yl zl dL : ℚ) (nx ny nz : ℕ) (idx : ℕ) : CellPt :=
  if idx < nx * ny then ew0_point dL zl ny idx
  else if idx < nx * ny + nz * nx then
    ew1_point dL xl zl nx (idx - nx * ny)
  else if idx < nx * ny + nz * nx + nz * ny then
    ew2_point dL zl ny (idx - (nx * ny + nz * nx))
  else if idx < nx * ny + 2 * (nz * nx) + nz * ny then
    ew3_point dL xl yl zl nx (idx - (nx * ny + nz * nx + nz * ny))
  else if idx < nx * ny + 2 * (nz * nx) + 2 * (nz * ny) then
    ew4_point dL xl zl ny (idx - (nx * ny + 2 * (nz * nx) + nz * ny))
  else if idx < 2 * (nx * ny) + 2 * (nz * nx) + 2 * (nz * ny) then
    ew5_point dL ny (idx - (nx * ny + 2 * (nz * nx) + 2 * (nz * ny)))
  else ⟨0, 0, 0, 6⟩

lemma delta_L_cube : delta_L 2 1 2 1 2 1 (1 / 2) = 1 := by
  have h1 : lcmCode 1 1 1 = 1 := by decide
  have h2 : n_tick 1 2 1 = 2 := by decide
  have h3 : num_gfc 2 2 2 = 2 := by decide
  rw [delta_L, delta_Lmax, h1, h2, h3]
  norm_num

/-- C1: counterexample to the claimed ΔL spacing.  Room 2×2×2 with scale
factor 1/2 gives ΔL = 1 and two ticks per axis; cells 8 and 9 are the
first two wall-2 cells (same wall, same z), yet their centroids are only
ΔL/2 = 1/2 apart along y instead of ΔL, so the two ΔL-wide cells
overlap. -/
theorem claim_C1 :
    delta_L 2 1 2 1 2 1 (1 / 2) = 1 ∧
    noTick 2 (delta_L 2 1 2 1 2 1 (1 / 2)) = 2 ∧
    (arrayPoints 2 2 2 1 2 2 2 8).wall = 2 ∧
    (arrayPoints 2 2 2 1 2 2 2 9).wall = 2 ∧
    (arrayPoints 2 2 2 1 2 2 2 8).z = (arrayPoints 2 2 2 1 2 2 2 9).z ∧
    (arrayPoints 2 2 2 1 2 2 2 9).y - (arrayPoints 2 2 2 1 2 2 2 8).y
      = 1 / 2 ∧
    ¬((arrayPoints 2 2 2 1 2 2 2 9).y - (arrayPoints 2 2 2 1 2 2 2 8).y
      = 1) ∧
    |(arrayPoints 2 2 2 1 2 2 2 9).y - (arrayPoints 2 2 2 1 2 2 2 8).y|
      < 1 := by
  refine ⟨delta_L_cube, ?_, ?_, ?_, ?_, ?_, ?_, ?_⟩
  · rw [noTick, delta_L_cube]
    norm_num
    decide
  all_goals simp [arrayPoints, ew2_point, abs, max_def]
  all_goals norm_num

/-- One coordinate of `np.isclose` with numpy's defaults
(`|a-b| <= atol + rtol*|b|`, atol = 1e-8, rtol = 1e-5). -/
def isclose (a b : ℚ) : Prop :=
  |a - b| ≤ 1 / 100000000 + 1 / 100000 * |b|

instance (a b : ℚ) : Decidable (isclose a b) := by
  rw [isclose]; infer_instance

/-- `np.allclose` of a position against the first three rows of a column
of `array_points` (compute_cir lines 379 and 386). -/
def allclose3 (p : ℚ × ℚ × ℚ) (c : CellPt) : Prop :=
  isclose p.1 c.x ∧ isclose p.2.1 c.y ∧ isclose p.2.2 c.z

/-- The transmitter/receiver index search of `compute_cir`
(lines 377-389): the loop `for i in range(no_cells)` assigns
`tx_index_point` (and breaks) exactly when some cell index is allclose
to the position; if no index matches, the variable is never assigned and
the source crashes with `UnboundLocalError` at its first use. -/
def gridMatch (pts : ℕ → CellPt) (n : ℕ) (pos : ℚ × ℚ × ℚ) : Prop :=
  ∃ i < n, allclose3 pos (pts i)

/-- C4: in the 2×2×2 room at scale 1/2 (24 cells), the position
(0.3, 0.3, 2) lies on wall 0 but on no generated centroid; the grid
lookup loop of `compute_cir` never assigns the index, so the source
aborts with `UnboundLocalError`, not with an explicit PositionNotOnGrid
diagnostic. -/
theorem claim_C4 :
    ¬ gridMatch (fun idx => arrayPoints 2 2 2 1 2 2 2 idx) 24
        (3 / 10, 3 / 10, 2) ∧
      delta_L 2 1 2 1 2 1 (1 / 2) = 1 := by
  refine ⟨?_, delta_L_cube⟩
  rintro ⟨i, hi, hx, hy, hz⟩
  interval_cases i <;>
    revert hx hy hz <;>
    simp [arrayPoints, ew0_point, ew1_point, ew2_point, ew3_point,
      ew4_point, ew5_point, isclose, abs, max_def] <;>
    norm_num

/-- The LOS reference delay `delay_los = h_k[0][0,1]` read once at the
top of `create_histograms` (line 510), before any mutation. -/
def delay_los (hk : ℕ → ℕ → ℚ × ℚ) : ℚ := (hk 0 0).2

/-- Bucket index of record `j` of order `i`: lines 529-530 subtract the
LOS delay and apply `np.floor(.../TIME_RESOLUTION)`; line 533 converts
the (integral) float to `int`. -/
def bIdx (hk : ℕ → ℕ → ℚ × ℚ) (i j : ℕ) : ℤ :=
  ⌊((hk i j).2 - delay_los hk) / TIME_RESOLUTION⌋

/-- Numpy integer indexing of an axis of length `n` (line 533):
an index in `[0, n)` is used as is, an index in `[-n, 0)` silently wraps
to `n + b`, and anything else raises `IndexError` (modelled `none`). -/
def npIndex (n : ℕ) (b : ℤ) : Option ℕ :=
  if 0 ≤ b ∧ b < (n : ℤ) then some b.toNat
  else if -(n : ℤ) ≤ b ∧ b < 0 then some (b + n).toNat
  else none

/-- In-place accumulation `hist_power_time[b0, i0] += p` (line 533). -/
def bucketAdd (h : ℕ → ℕ → ℚ) (b0 i0 : ℕ) (p : ℚ) : ℕ → ℕ → ℚ :=
  fun b i => if b = b0 ∧ i = i0 then h b i + p else h b i

/-- One iteration of the binning loop of `create_histograms`
(lines 532-533); an out-of-range index aborts with `IndexError`. -/
def stepRecord (hk : ℕ → ℕ → ℚ × ℚ) (i : ℕ)
    (st : Except Unit (ℕ → ℕ → ℚ)) (j : ℕ) : Except Unit (ℕ → ℕ → ℚ) :=
  match st with
  | Except.error e => Except.error e
  | Except.ok h =>
    match npIndex BINS_HIST (bIdx hk i j) with
    | none => Except.error ()
    | some b => Except.ok (bucketAdd h b i (hk i j).1)

/-- The binning loop of order `i` over its `no_cells^i` records. -/
def processOrder (hk : ℕ → ℕ → ℚ × ℚ) (nc : ℕ)
    (st : Except Unit (ℕ → ℕ → ℚ)) (i : ℕ) : Except Unit (ℕ → ℕ → ℚ) :=
  (List.range (nc ^ i)).foldl (stepRecord hk i) st

/-- The full `hist_power_time` matrix of `create_histograms`: the zero
matrix of line 511 filled by the loop over orders `0..k_reflec`
(lines 515-533), indexed `[bucket, order]`. -/
def histMatrix (hk : ℕ → ℕ → ℚ × ℚ) (nc k : ℕ) :
    Except Unit (ℕ → ℕ → ℚ) :=
  (List.range (k + 1)).foldl (processOrder hk nc) (Except.ok fun _ _ => 0)

/-- `total_ht = np.sum(hist_power_time, axis=1)` (line 542). -/
def total_ht (hk : ℕ → ℕ → ℚ × ℚ) (nc k : ℕ) : Except Unit (ℕ → ℚ) :=
  (histMatrix hk nc k).map (fun H b => ∑ i ∈ Finset.range (k + 1), H b i)

/-- Per-order total power `h_power[i] = np.sum(h_k[i][:,0])` (line 521). -/
def h_power (hk : ℕ → ℕ → ℚ × ℚ) (nc i : ℕ) : ℚ :=
  ∑ j ∈ Finset.range (nc ^ i), (hk i j).1

/-- Post-call state of the caller's `h_k` array of order `i`:
`hk_aux[i] = h_k[i]` (line 528) binds the same numpy array, so the
writes of lines 529-530 replace the delay column of `h_k[i]` by the
(float-valued) bucket indices, while the power column is untouched. -/
def hkPost (hk : ℕ → ℕ → ℚ × ℚ) (i j : ℕ) : ℚ × ℚ :=
  ((hk i j).1, ((bIdx hk i j : ℤ) : ℚ))

/-- `create_histograms(h_k, k_reflec, no_cells)`: returns the histogram
matrix, the per-order powers, and — because the source mutates its
argument in place — the post-call state of `h_k`. -/
def create_histograms (hk : ℕ → ℕ → ℚ × ℚ) (k nc : ℕ) :
    Except Unit (ℕ → ℕ → ℚ) × (ℕ → ℚ) × (ℕ → ℕ → ℚ × ℚ) :=
  (histMatrix hk nc k, fun i => h_power hk nc i, fun i j => hkPost hk i j)

/-- Record set whose order-1 record maps to bucket index 300 = BINS_HIST
(relative delay 6e-8 s): one order-0 record of delay 0 and one order-1
record, with `no_cells = 1`, `k_reflec = 1`. -/
def hkBad : ℕ → ℕ → ℚ × ℚ :=
  fun i _ => if i = 0 then (1, 0) else (1, 3 / 50000000)

/-- Record set whose order-1 record maps to bucket index −1 (its delay
precedes the LOS reference). -/
def hkNeg : ℕ → ℕ → ℚ × ℚ :=
  fun i _ => if i = 0 then (1, 1 / 5000000000) else (1, 0)

/-- C2: counterexample — the histogrammer has no discard/clip policy.
A record whose bucket index is 300 makes it index the histogram out of
range (IndexError, modelled as the error state), and a record whose
bucket index is −1 is silently accumulated into bin 299 by numpy's
negative-index wraparound; neither is discarded, clipped into the last
bin, counted, nor reported. -/
theorem claim_C2 :
    bIdx hkBad 1 0 = 300 ∧
    histMatrix hkBad 1 1 = Except.error () ∧
    bIdx hkNeg 1 0 = -1 ∧
    ∃ H, histMatrix hkNeg 1 1 = Except.ok H ∧ H 299 1 = 1 := by
  have hb0 : bIdx hkBad 0 0 = 0 := by
    norm_num [bIdx, delay_los, hkBad, TIME_RESOLUTION]
  have hb1 : bIdx hkBad 1 0 = 300 := by
    norm_num [bIdx, delay_los, hkBad, TIME_RESOLUTION]
  have hn0 : bIdx hkNeg 0 0 = 0 := by
    norm_num [bIdx, delay_los, hkNeg, TIME_RESOLUTION]
  have hn1 : bIdx hkNeg 1 0 = -1 := by
    norm_num [bIdx, delay_los, hkNeg, TIME_RESOLUTION]
  have hi0 : npIndex BINS_HIST 0 = some 0 := by
    unfold npIndex
    norm_num [BINS_HIST]
  have hi300 : npIndex BINS_HIST 300 = none := by
    unfold npIndex
    norm_num [BINS_HIST]
  have hineg : npIndex BINS_HIST (-1) = some 299 := by
    unfold npIndex
    norm_num [BINS_HIST]
    decide
  have hr1 : List.range 1 = [0] := by decide
  have hr2 : List.range 2 = [0, 1] := by decide
  refine ⟨hb1, ?_, hn1, ?_⟩
  · simp [histMatrix, processOrder, stepRecord, hr1, hr2,
      hb0, hb1, hi0, hi300]
  · refine ⟨bucketAdd (bucketAdd (fun _ _ => 0) 0 0 1) 299 1 1, ?_, ?_⟩
    · simp [histMatrix, processOrder, stepRecord, hr1, hr2,
        hn0, hn1, hi0, hineg, hkNeg]
    · norm_num [bucketAdd]

/-- Record set for the aliasing demonstration: `no_cells = 1`,
`k_reflec = 1`, order-0 delay 0 s, order-1 delay 4e-10 s (bucket 2). -/
def hkEx : ℕ → ℕ → ℚ × ℚ :=
  fun i _ => if i = 0 then (1, 0) else (1, 2 / 5000000000)

/-- C3: `create_histograms` mutates its argument in place — after the
call, every delay entry of `h_k` holds the bucket index
`floor((delay − delay_LOS)/Δt)` instead of the original delay (powers
untouched), so at the concrete input `hkEx` the propagator's output is
destroyed and a second call on the returned state produces yet another
state. -/
theorem claim_C3 :
    (∀ (hk : ℕ → ℕ → ℚ × ℚ) (k nc i j : ℕ),
        (create_histograms hk k nc).2.2 i j
          = ((hk i j).1,
             ((⌊((hk i j).2 - (hk 0 0).2) / TIME_RESOLUTION⌋ : ℤ) : ℚ))) ∧
    (create_histograms hkEx 1 1).2.2 1 0 ≠ hkEx 1 0 ∧
    (create_histograms ((create_histograms hkEx 1 1).2.2) 1 1).2.2 1 0
      ≠ (create_histograms hkEx 1 1).2.2 1 0 := by
  have e1 : (create_histograms hkEx 1 1).2.2 1 0 = (1, 2) := by
    show ((hkEx 1 0).1, ((bIdx hkEx 1 0 : ℤ) : ℚ)) = (1, 2)
    have hb : bIdx hkEx 1 0 = 2 := by
      norm_num [bIdx, delay_los, hkEx, TIME_RESOLUTION]
    rw [hb]
    norm_num [hkEx]
  have e0 : (create_histograms hkEx 1 1).2.2 0 0 = (1, 0) := by
    show ((hkEx 0 0).1, ((bIdx hkEx 0 0 : ℤ) : ℚ)) = (1, 0)
    have hb : bIdx hkEx 0 0 = 0 := by
      norm_num [bIdx, delay_los, hkEx, TIME_RESOLUTION]
    rw [hb]
    norm_num [hkEx]
  have e2 : (create_histograms ((create_histograms hkEx 1 1).2.2) 1 1).2.2 1 0
      = (1, 10000000000) := by
    show (((create_histograms hkEx 1 1).2.2 1 0).1,
          ((bIdx ((create_histograms hkEx 1 1).2.2) 1 0 : ℤ) : ℚ)) = _
    have hb : bIdx ((create_histograms hkEx 1 1).2.2) 1 0 = 10000000000 := by
      rw [bIdx, delay_los, e1, e0]
      norm_num [TIME_RESOLUTION]
    rw [hb, e1]
    norm_num
  refine ⟨fun hk k nc i j => rfl, ?_, ?_⟩
  · rw [e1]
    norm_num [hkEx, Prod.ext_iff]
  · rw [e2, e1]
    norm_num [Prod.ext_iff]

lemma bucketAdd_ne_col (h : ℕ → ℕ → ℚ) (b0 i0 : ℕ) (p : ℚ) (b i : ℕ)
    (hne : i ≠ i0) : bucketAdd h b0 i0 p b i = h b i := by
  simp [bucketAdd, hne]

lemma bucketAdd_col_sum (h : ℕ → ℕ → ℚ) (b0 i0 : ℕ) (p : ℚ)
    (hb : b0 < BINS_HIST) :
    ∑ b ∈ Finset.range BINS_HIST, bucketAdd h b0 i0 p b i0
      = (∑ b ∈ Finset.range BINS_HIST, h b i0) + p := by
  have hpt : ∀ b, bucketAdd h b0 i0 p b i0
      = h b i0 + (if b = b0 then p else 0) := by
    intro b
    by_cases hb' : b = b0 <;> simp [bucketAdd, hb']
  rw [Finset.sum_congr rfl (fun b _ => hpt b), Finset.sum_add_distrib,
    Finset.sum_ite_eq' (Finset.range BINS_HIST) b0 (fun _ => p),
    if_pos (Finset.mem_range.mpr hb)]

lemma processOrder_ok (hk : ℕ → ℕ → ℚ × ℚ) (i : ℕ) :
    ∀ (n : ℕ) (h : ℕ → ℕ → ℚ),
      (∀ j < n, 0 ≤ bIdx hk i j ∧ bIdx hk i j < (BINS_HIST : ℤ)) →
      ∃ h2, (List.range n).foldl (stepRecord hk i) (Except.ok h)
          = Except.ok h2 ∧
        (∀ b i2, i2 ≠ i → h2 b i2 = h b i2) ∧
        ∑ b ∈ Finset.range BINS_HIST, h2 b i
          = (∑ b ∈ Finset.range BINS_HIST, h b i)
            + ∑ j ∈ Finset.range n, (hk i j).1 := by
  intro n
  induction n with
  | zero => exact fun h _ => ⟨h, rfl, fun b i2 _ => rfl, by simp⟩
  | succ m ih =>
    intro h hall
    obtain ⟨h2, hfold, hcol, hsum⟩ :=
      ih h (fun j hj => hall j (Nat.lt_succ_of_lt hj))
    obtain ⟨hge, hlt⟩ := hall m (Nat.lt_succ_self m)
    have hidx : npIndex BINS_HIST (bIdx hk i m)
        = some (bIdx hk i m).toNat := by
      unfold npIndex
      rw [if_pos ⟨hge, hlt⟩]
    have htn : (bIdx hk i m).toNat < BINS_HIST := by
      simp only [BINS_HIST] at hlt ⊢
      omega
    refine ⟨bucketAdd h2 (bIdx hk i m).toNat i (hk i m).1, ?_, ?_, ?_⟩
    · rw [List.range_succ, List.foldl_append, hfold]
      simp [stepRecord, hidx]
    · intro b i2 hne
      rw [bucketAdd_ne_col _ _ _ _ _ _ hne, hcol _ _ hne]
    · rw [bucketAdd_col_sum _ _ _ _ htn, hsum, Finset.sum_range_succ]
      ring

lemma histFold_ok (hk : ℕ → ℕ → ℚ × ℚ) (nc : ℕ) :
    ∀ (os : List ℕ) (h : ℕ → ℕ → ℚ),
      os.Nodup →
      (∀ i ∈ os, ∀ j < nc ^ i,
        0 ≤ bIdx hk i j ∧ bIdx hk i j < (BINS_HIST : ℤ)) →
      ∃ H, os.foldl (processOrder hk nc) (Except.ok h) = Except.ok H ∧
        (∀ b i2, i2 ∉ os → H b i2 = h b i2) ∧
        (∀ i ∈ os, ∑ b ∈ Finset.range BINS_HIST, H b i
          = (∑ b ∈ Finset.range BINS_HIST, h b i) + h_power hk nc i) := by
  intro os
  induction os with
  | nil =>
    exact fun h _ _ => ⟨h, rfl, fun b i2 _ => rfl, fun i hi => absurd hi (by simp)⟩
  | cons o rest ih =>
    intro h hnd hall
    obtain ⟨h1, hf1, hcol1, hsum1⟩ :=
      processOrder_ok hk o (nc ^ o) h (hall o (List.mem_cons_self o rest))
    obtain ⟨H, hfH, hcolH, hsumH⟩ :=
      ih h1 (List.Nodup.of_cons hnd)
        (fun i hi => hall i (List.mem_cons_of_mem _ hi))
    refine ⟨H, ?_, ?_, ?_⟩
    · rw [List.foldl_cons,
        show processOrder hk nc (Except.ok h) o = Except.ok h1 from hf1, hfH]
    · intro b i2 hni
      have hno : i2 ≠ o := fun e => hni (e ▸ List.mem_cons_self o rest)
      have hnr : i2 ∉ rest := fun m => hni (List.mem_cons_of_mem _ m)
      rw [hcolH b i2 hnr, hcol1 b i2 hno]
    · intro i hi
      rcases List.mem_cons.mp hi with he | hm
      · subst he
        have hno : i ∉ rest := (List.nodup_cons.mp hnd).1
        have hpt : ∀ b, H b i = h1 b i := fun b => hcolH b i hno
        rw [Finset.sum_congr rfl fun b _ => hpt b, hsum1]
        rfl
      · have hne : i ≠ o := by
          rintro rfl
          exact (List.nodup_cons.mp hnd).1 hm
        have hcg : ∑ b ∈ Finset.range BINS_HIST, h1 b i
            = ∑ b ∈ Finset.range BINS_HIST, h b i :=
          Finset.sum_congr rfl fun b _ => hcol1 b i hne
        rw [hsumH i hm, hcg]

/-- C10: for every record family whose bucket indices all lie within
`[0, BINS_HIST)` for orders `0..k`, the histogram loop succeeds, the
bucket powers of each order's histogram column sum to that order's
reported total power `h_power`, and the aggregate histogram is the
elementwise sum of the per-order columns. -/
theorem claim_C10 (hk : ℕ → ℕ → ℚ × ℚ) (nc k : ℕ)
    (hrange : ∀ i ≤ k, ∀ j < nc ^ i,
      0 ≤ bIdx hk i j ∧ bIdx hk i j < (BINS_HIST : ℤ)) :
    ∃ H, histMatrix hk nc k = Except.ok H ∧
      (∀ i ≤ k, ∑ b ∈ Finset.range BINS_HIST, H b i = h_power hk nc i) ∧
      total_ht hk nc k
        = Except.ok (fun b => ∑ i ∈ Finset.range (k + 1), H b i) := by
  obtain ⟨H, hf, hcol, hsum⟩ :=
    histFold_ok hk nc (List.range (k + 1)) (fun _ _ => 0)
      (List.nodup_range _)
      (fun i hi => hrange i (Nat.lt_succ_iff.mp (List.mem_range.mp hi)))
  have hfm : histMatrix hk nc k = Except.ok H := hf
  refine ⟨H, hfm, ?_, ?_⟩
  · intro i hik
    have h := hsum i (List.mem_range.mpr (Nat.lt_succ_iff.mpr hik))
    simpa using h
  · show (histMatrix hk nc k).map _ = _
    rw [hfm]
    rfl

/-- In-range record set for the C10 witness: `no_cells = 1`,
`k_reflec = 1`, bucket indices 0 and 2. -/
def hkW : ℕ → ℕ → ℚ × ℚ :=
  fun i _ => if i = 0 then (2, 0) else (3, 2 / 5000000000)

/-- Witness for C10 at the concrete record set `hkW`. -/
theorem claim_C10_witness :
    (∀ i ≤ 1, ∀ j < (1 : ℕ) ^ i,
      0 ≤ bIdx hkW i j ∧ bIdx hkW i j < (BINS_HIST : ℤ)) ∧
    (∃ H, histMatrix hkW 1 1 = Except.ok H ∧
      (∀ i ≤ 1, ∑ b ∈ Finset.range BINS_HIST, H b i = h_power hkW 1 i) ∧
      total_ht hkW 1 1
        = Except.ok (fun b => ∑ i ∈ Finset.range (1 + 1), H b i)) := by
  have hyp : ∀ i ≤ 1, ∀ j < (1 : ℕ) ^ i,
      0 ≤ bIdx hkW i j ∧ bIdx hkW i j < (BINS_HIST : ℤ) := by
    intro i hi j hj
    interval_cases i <;> interval_cases j <;>
      constructor <;>
      norm_num [bIdx, delay_los, hkW, TIME_RESOLUTION, BINS_HIST]
  exact ⟨hyp, claim_C10 hkW 1 1 hyp⟩

/-- Transmitter radiant term `tx_power[j]` of `compute_cir` (line 398):
`(m+1)/(2*np.pi) * divide(1, dis2[tx,:], out=0, where dis2 != 0)
 * cos_phi[j]^m` with `cos_phi = parameters[1, tx_index, :]`.
The matrices `dist`/`cosA` stand for `parameters[0]`/`parameters[1]`
and `piv` for the float constant `np.pi`. -/
def tx_power (m : ℕ) (piv : ℚ) (dist cosA : ℕ → ℕ → ℚ)
    (txi j : ℕ) : ℚ :=
  ((m : ℚ) + 1) / (2 * piv)
    * ((if (dist txi j) ^ 2 ≠ 0 then 1 / (dist txi j) ^ 2 else 0)
        * (cosA txi j) ^ m)

/-- Receiver response term `rx_wall_factor[j] = a_r*parameters[1,rx,:]`
(line 399). -/
def rx_wall_factor (a_r : ℚ) (cosA : ℕ → ℕ → ℚ) (rxi j : ℕ) : ℚ :=
  a_r * cosA rxi j

/-- Order-0 record power
`h_k[0][0,0] = tx_power[rx_index]*rx_wall_factor[tx_index]` (line 431). -/
def h0_power (m : ℕ) (piv a_r : ℚ) (dist cosA : ℕ → ℕ → ℚ)
    (txi rxi : ℕ) : ℚ :=
  tx_power m piv dist cosA txi rxi * rx_wall_factor a_r cosA rxi txi

/-- Order-0 record delay
`h_k[0][0,1] = parameters[0,tx,rx]/SPEED_OF_LIGHT` (line 432). -/
def h0_delay (dist : ℕ → ℕ → ℚ) (txi rxi : ℕ) : ℚ :=
  dist txi rxi / SPEED_OF_LIGHT

/-- Diffuse transfer factor `dP_ij` (line 416):
`divide(rho*delta_A*parameters[1,:,:]*transpose(parameters[1,:,:]),
 np.pi*dis2, out=0, where dis2 != 0)`. -/
def dP_ij (rho dA piv : ℚ) (dist cosA : ℕ → ℕ → ℚ) (i j : ℕ) : ℚ :=
  if (dist i j) ^ 2 ≠ 0 then
    rho * dA * (cosA i j * cosA j i) / (piv * (dist i j) ^ 2)
  else 0

/-- C7: when transmitter and receiver sit on cells of different walls
(so the geometry cache holds a nonzero tx–rx distance), the single
order-0 record of `compute_cir` has power
`(m+1)/(2π)·cos^m(φ)/d² · a_r·cos(θ)` — the Lambertian radiant
intensity toward the receiver, weighted by the inverse square distance
and the receiver's directional response — and delay `d/SPEED_OF_LIGHT`. -/
theorem claim_C7 (m : ℕ) (piv a_r : ℚ) (dist cosA : ℕ → ℕ → ℚ)
    (txi rxi : ℕ) (hd : dist txi rxi ≠ 0) :
    h0_power m piv a_r dist cosA txi rxi
      = ((m : ℚ) + 1) / (2 * piv) * (cosA txi rxi) ^ m
          / (dist txi rxi) ^ 2 * (a_r * cosA rxi txi) ∧
    h0_delay dist txi rxi = dist txi rxi / SPEED_OF_LIGHT := by
  constructor
  · rw [h0_power, tx_power, rx_wall_factor, if_pos (pow_ne_zero 2 hd)]
    ring
  · rfl

/-- Concrete distance matrix for the C7/C8 witnesses: distance 2 between
distinct indices, 0 on the diagonal. -/
def distW : ℕ → ℕ → ℚ := fun i j => if i = j then 0 else 2

/-- Concrete cosine matrix for the C7/C8 witnesses. -/
def cosW : ℕ → ℕ → ℚ := fun _ _ => 1 / 2

/-- Witness for C7 at `m = 1`, `piv = 3`, `a_r = 1/100`,
`tx_index = 0`, `rx_index = 1`. -/
theorem claim_C7_witness :
    distW 0 1 ≠ 0 ∧
    (h0_power 1 3 (1 / 100) distW cosW 0 1
      = (((1 : ℕ) : ℚ) + 1) / (2 * 3) * (cosW 0 1) ^ 1
          / (distW 0 1) ^ 2 * (1 / 100 * cosW 1 0) ∧
     h0_delay distW 0 1 = distW 0 1 / SPEED_OF_LIGHT) := by
  have hd : distW 0 1 ≠ 0 := by norm_num [distW]
  exact ⟨hd, claim_C7 1 3 (1 / 100) distW cosW 0 1 hd⟩

/-- C8: the pairwise diffuse transfer factor equals
`ρ·ΔA·cos_angle[i,j]·cos_angle[j,i]/(π·distance[i,j]²)` whenever the
distance is nonzero, and is zero where the distance is zero (same-wall
and self pairs); the division is guarded and never evaluated on the
zero-distance branch. -/
theorem claim_C8 (rho dA piv : ℚ) (dist cosA : ℕ → ℕ → ℚ) (i j : ℕ) :
    (dist i j = 0 → dP_ij rho dA piv dist cosA i j = 0) ∧
    (dist i j ≠ 0 → dP_ij rho dA piv dist cosA i j
      = rho * dA * (cosA i j * cosA j i) / (piv * (dist i j) ^ 2)) := by
  constructor
  · intro h0
    rw [dP_ij, if_neg]
    simp [h0]
  · intro hne
    rw [dP_ij, if_pos (pow_ne_zero 2 hne)]

/-- Witness for C8 at the concrete matrices `distW`/`cosW`, exercising
both the zero-distance pair (0,0) and the nonzero pair (0,1). -/
theorem claim_C8_witness :
    distW 0 0 = 0 ∧ distW 0 1 ≠ 0 ∧
    dP_ij (4 / 5) (1 / 200) 3 distW cosW 0 0 = 0 ∧
    dP_ij (4 / 5) (1 / 200) 3 distW cosW 0 1
      = 4 / 5 * (1 / 200) * (cosW 0 1 * cosW 1 0)
          / (3 * (distW 0 1) ^ 2) := by
  have h0 : distW 0 0 = 0 := by norm_num [distW]
  have h1 : distW 0 1 ≠ 0 := by norm_num [distW]
  exact ⟨h0, h1,
    (claim_C8 (4 / 5) (1 / 200) 3 distW cosW 0 0).1 h0,
    (claim_C8 (4 / 5) (1 / 200) 3 distW cosW 0 1).2 h1⟩

/-- Coordinate triple of a point or normal vector. -/
abbrev Vec3 : Type := ℝ × ℝ × ℝ

/-- Euclidean dot product of triples. -/
def dot3 (a b : Vec3) : ℝ := a.1 * b.1 + a.2.1 * b.2.1 + a.2.2 * b.2.2

/-- Componentwise difference `v1 - v2`. -/
def sub3 (a b : Vec3) : Vec3 := (a.1 - b.1, a.2.1 - b.2.1, a.2.2 - b.2.2)

/-- Scalar multiple of a triple. -/
def smul3 (c : ℝ) (v : Vec3) : Vec3 := (c * v.1, c * v.2.1, c * v.2.2)

/-- `np.linalg.norm` of a triple (the geometry kernel needs real square
roots, hence `ℝ` and noncomputable definitions in this section). -/
noncomputable def norm3 (v : Vec3) : ℝ := Real.sqrt (dot3 v v)

/-- `unit_vlos = (v1-v2)/np.linalg.norm(v1-v2)` (line 62). -/
noncomputable def unitv (v1 v2 : Vec3) : Vec3 :=
  smul3 (1 / norm3 (sub3 v1 v2)) (sub3 v1 v2)

/-- Source `cos_2points` (lines 55-68): returns
`(np.dot(-1*unit_vlos, n1), np.dot(unit_vlos, n2))`. -/
noncomputable def cos_2points (v1 n1 v2 n2 : Vec3) : ℝ × ℝ :=
  (dot3 (smul3 (-1) (unitv v1 v2)) n1, dot3 (unitv v1 v2) n2)

/-- `fastdist.euclidean` between two centroids (line 309). -/
noncomputable def euclid (a b : Vec3) : ℝ :=
  Real.sqrt (dot3 (sub3 a b) (sub3 a b))

/-- Source constant `NORMAL_VECTOR_WALL` (line 45), indexed by wall
label; labels outside 0..5 give the zero vector (they do not occur). -/
def NORMAL_VECTOR_WALL : ℕ → Vec3
  | 0 => (0, 0, -1)
  | 1 => (0, 1, 0)
  | 2 => (1, 0, 0)
  | 3 => (0, -1, 0)
  | 4 => (-1, 0, 0)
  | 5 => (0, 0, 1)
  | _ => (0, 0, 0)

/-- Distance matrix `ew_par[0]` of `make_parameters` (lines 293-313):
the upper-triangle loop (`ini_point < end_point`) writes 0 for same-wall
pairs, otherwise the Euclidean distance mirrored to both entries; the
diagonal keeps its zero initialisation. -/
noncomputable def ew_par_dist (pts : ℕ → Vec3) (wallL : ℕ → ℕ)
    (i j : ℕ) : ℝ :=
  if i < j then
    (if wallL i = wallL j then 0 else euclid (pts i) (pts j))
  else if j < i then
    (if wallL j = wallL i then 0 else euclid (pts j) (pts i))
  else 0

/-- Cosine matrix `ew_par[1]` of `make_parameters`: for the pair
`(ini, end)` with `ini < end` the loop stores `cos_phi` at
`[ini, end]` and `cos_tetha` at `[end, ini]` (lines 312-313); same-wall
pairs and the diagonal are zero. -/
noncomputable def ew_par_cos (pts : ℕ → Vec3) (wallL : ℕ → ℕ)
    (i j : ℕ) : ℝ :=
  if i < j then
    (if wallL i = wallL j then 0
     else (cos_2points (pts i) (NORMAL_VECTOR_WALL (wallL i))
             (pts j) (NORMAL_VECTOR_WALL (wallL j))).1)
  else if j < i then
    (if wallL j = wallL i then 0
     else (cos_2points (pts j) (NORMAL_VECTOR_WALL (wallL j))
             (pts i) (NORMAL_VECTOR_WALL (wallL i))).2)
  else 0

lemma dot3_self_nonneg (a : Vec3) : 0 ≤ dot3 a a := by
  unfold dot3
  nlinarith [sq_nonneg a.1, sq_nonneg a.2.1, sq_nonneg a.2.2]

lemma dot3_sq_le (a b : Vec3) : (dot3 a b) ^ 2 ≤ dot3 a a * dot3 b b := by
  unfold dot3
  nlinarith [sq_nonneg (a.1 * b.2.1 - a.2.1 * b.1),
    sq_nonneg (a.1 * b.2.2 - a.2.2 * b.1),
    sq_nonneg (a.2.1 * b.2.2 - a.2.2 * b.2.1)]

lemma norm3_nonneg (v : Vec3) : 0 ≤ norm3 v := Real.sqrt_nonneg _

lemma abs_dot3_le (a b : Vec3) : |dot3 a b| ≤ norm3 a * norm3 b := by
  rw [norm3, norm3, ← Real.sqrt_mul (dot3_self_nonneg a),
    ← Real.sqrt_sq_eq_abs]
  exact Real.sqrt_le_sqrt (dot3_sq_le a b)

lemma dot3_smul_left (c : ℝ) (v w : Vec3) :
    dot3 (smul3 c v) w = c * dot3 v w := by
  unfold dot3 smul3
  ring

lemma norm3_smul (c : ℝ) (v : Vec3) :
    norm3 (smul3 c v) = |c| * norm3 v := by
  unfold norm3
  rw [show dot3 (smul3 c v) (smul3 c v) = c ^ 2 * dot3 v v by
    unfold dot3 smul3; ring]
  rw [Real.sqrt_mul (sq_nonneg c), Real.sqrt_sq_eq_abs]

lemma norm3_normal_le (k : ℕ) : norm3 (NORMAL_VECTOR_WALL k) ≤ 1 := by
  rcases k with _ | _ | _ | _ | _ | _ | k <;>
    simp [NORMAL_VECTOR_WALL, norm3, dot3]

lemma abs_dot3_unitv_le (v1 v2 n : Vec3) (hn : norm3 n ≤ 1) :
    |dot3 (unitv v1 v2) n| ≤ 1 := by
  by_cases h : norm3 (sub3 v1 v2) = 0
  · rw [unitv, h, dot3_smul_left]
    norm_num
  · have hpos : 0 < norm3 (sub3 v1 v2) :=
      lt_of_le_of_ne (norm3_nonneg _) (Ne.symm h)
    have hu : norm3 (unitv v1 v2) = 1 := by
      rw [unitv, norm3_smul,
        abs_of_pos (by positivity : (0 : ℝ) < 1 / norm3 (sub3 v1 v2))]
      field_simp
    calc |dot3 (unitv v1 v2) n|
        ≤ norm3 (unitv v1 v2) * norm3 n := abs_dot3_le _ _
      _ = norm3 n := by rw [hu, one_mul]
      _ ≤ 1 := hn

lemma cos1_abs_le (v1 v2 n1 n2 : Vec3) (hn : norm3 n1 ≤ 1) :
    |(cos_2points v1 n1 v2 n2).1| ≤ 1 := by
  show |dot3 (smul3 (-1) (unitv v1 v2)) n1| ≤ 1
  rw [dot3_smul_left,
    show |(-1 : ℝ) * dot3 (unitv v1 v2) n1| = |dot3 (unitv v1 v2) n1| by
      rw [abs_mul]; norm_num]
  exact abs_dot3_unitv_le v1 v2 n1 hn

lemma cos2_abs_le (v1 v2 n1 n2 : Vec3) (hn : norm3 n2 ≤ 1) :
    |(cos_2points v1 n1 v2 n2).2| ≤ 1 := by
  show |dot3 (unitv v1 v2) n2| ≤ 1
  exact abs_dot3_unitv_le v1 v2 n2 hn

/-- C9: for the matrices produced by `make_parameters` over any cell
set: the distance matrix is symmetric with a zero diagonal, same-wall
pairs have zero distance and cosine entries, and every cosine entry lies
in [−1, 1]. -/
theorem claim_C9 (pts : ℕ → Vec3) (wallL : ℕ → ℕ) (i j : ℕ) :
    ew_par_dist pts wallL i j = ew_par_dist pts wallL j i ∧
    ew_par_dist pts wallL i i = 0 ∧
    (wallL i = wallL j →
      ew_par_dist pts wallL i j = 0 ∧ ew_par_cos pts wallL i j = 0) ∧
    (-1 ≤ ew_par_cos pts wallL i j ∧ ew_par_cos pts wallL i j ≤ 1) := by
  refine ⟨?_, ?_, ?_, ?_⟩
  · rcases lt_trichotomy i j with h | h | h
    · simp [ew_par_dist, h, Nat.lt_asymm h]
    · subst h; rfl
    · simp [ew_par_dist, h, Nat.lt_asymm h]
  · simp [ew_par_dist]
  · intro hw
    rcases lt_trichotomy i j with h | h | h
    · constructor <;> simp [ew_par_dist, ew_par_cos, h, hw]
    · subst h
      constructor <;> simp [ew_par_dist, ew_par_cos]
    · constructor <;>
        simp [ew_par_dist, ew_par_cos, h, Nat.lt_asymm h, hw.symm]
  · have habs : |ew_par_cos pts wallL i j| ≤ 1 := by
      rcases lt_trichotomy i j with h | h | h
      · by_cases hw : wallL i = wallL j
        · simp [ew_par_cos, h, hw]
        · simp only [ew_par_cos, if_pos h, if_neg hw]
          exact cos1_abs_le _ _ _ _ (norm3_normal_le _)
      · subst h
        simp [ew_par_cos]
      · by_cases hw : wallL j = wallL i
        · simp [ew_par_cos, h, Nat.lt_asymm h, hw]
        · simp only [ew_par_cos, if_neg (Nat.lt_asymm h), if_pos h,
            if_neg hw]
          exact cos2_abs_le _ _ _ _ (norm3_normal_le _)
    exact abs_le.mp habs

/-- Witness for C9 at a concrete cell set (all points at the origin on
wall 0) and the index pair (0, 1), discharging the same-wall hypothesis. -/
theorem claim_C9_witness :
    ew_par_dist (fun _ => ((0 : ℝ), 0, 0)) (fun _ => 0) 0 1 = 0 ∧
    ew_par_cos (fun _ => ((0 : ℝ), 0, 0)) (fun _ => 0) 0 1 = 0 ∧
    ew_par_dist (fun _ => ((0 : ℝ), 0, 0)) (fun _ => 0) 0 1
      = ew_par_dist (fun _ => ((0 : ℝ), 0, 0)) (fun _ => 0) 1 0 ∧
    -1 ≤ ew_par_cos (fun _ => ((0 : ℝ), 0, 0)) (fun _ => 0) 0 1 ∧
    ew_par_cos (fun _ => ((0 : ℝ), 0, 0)) (fun _ => 0) 0 1 ≤ 1 := by
  have h := claim_C9 (fun _ => ((0 : ℝ), 0, 0)) (fun _ => 0) 0 1
  exact ⟨(h.2.2.1 rfl).1, (h.2.2.1 rfl).2, h.1, h.2.2.2.1, h.2.2.2.2⟩
